import Mathlib

/-!
Verification of the orbit-fit core (`src/fit.rs`).

The program estimates the initial state (2D position and velocity) of a body
under inverse-square attraction toward the origin from a sequence of observed
bearing angles.  The Rust core is generic over a numeric element type
`T: Real`; the embedding mirrors that genericity with an explicit record of
numeric operations (`NumOps`), instantiated once at `ℝ` (the `f64` path) and
once at `Differential` (the forward-mode AD path used for the Jacobian).
Machine floats are modelled as real numbers; `Vec` indexing that can panic is
modelled with `Option`.
-/

namespace OrbitFit

noncomputable section

/-- `const DT: f64 = 0.25;` — the fixed integrator time step. -/
def DT : ℝ := 0.25

/-- 2D vector over a generic element type, mirroring `nalgebra::Vector2<T>`. -/
structure Vec2 (α : Type) where
  x : α
  y : α

/-- `State<T>` from `fit.rs`: position and velocity of the body. -/
structure State (α : Type) where
  pos : Vec2 α
  vel : Vec2 α

/-- The numeric capability set the Rust code requires of its element type
(`T: Real + Debug + AddAssign + DivAssign + MulAssign`): field arithmetic,
square root, integer power (`powi`), four-quadrant arctangent (`atan2`) and
conversion from `f64` (`T::from`). -/
structure NumOps (α : Type) where
  add : α → α → α
  sub : α → α → α
  mul : α → α → α
  div : α → α → α
  neg : α → α
  sqrt : α → α
  powi : α → ℕ → α
  atan2 : α → α → α
  ofReal : ℝ → α

/-- Componentwise vector addition (`Vector2 + Vector2`). -/
def vadd (ops : NumOps α) (a b : Vec2 α) : Vec2 α :=
  ⟨ops.add a.x b.x, ops.add a.y b.y⟩

/-- Componentwise vector subtraction (`Vector2 - Vector2`). -/
def vsub (ops : NumOps α) (a b : Vec2 α) : Vec2 α :=
  ⟨ops.sub a.x b.x, ops.sub a.y b.y⟩

/-- Componentwise vector negation (`-Vector2`). -/
def vneg (ops : NumOps α) (a : Vec2 α) : Vec2 α :=
  ⟨ops.neg a.x, ops.neg a.y⟩

/-- Vector times scalar (`Vector2 * T`). -/
def vscale (ops : NumOps α) (a : Vec2 α) (t : α) : Vec2 α :=
  ⟨ops.mul a.x t, ops.mul a.y t⟩

/-- Vector divided by scalar (`Vector2 / T`). -/
def vdivs (ops : NumOps α) (a : Vec2 α) (t : α) : Vec2 α :=
  ⟨ops.div a.x t, ops.div a.y t⟩

/-- One pass of the loop body inside `integrate_trajectory_euler`'s
`std::iter::from_fn` closure, taken in the source's mutation order:
the acceleration is computed from the not-yet-updated position
(`dist2` and `acc` are bound first), then `pos += vel * dt` (with the
not-yet-updated velocity), then `vel += acc * dt`. -/
def euler_step (ops : NumOps α) (s : State α) : State α :=
  let dt := ops.ofReal DT
  let dist2 := ops.add (ops.powi s.pos.x 2) (ops.powi s.pos.y 2)
  let acc := vdivs ops (vneg ops s.pos) (ops.powi (ops.sqrt dist2) 3)
  let pos := vadd ops s.pos (vscale ops s.vel dt)
  let vel := vadd ops s.vel (vscale ops acc dt)
  ⟨pos, vel⟩

/-- The list of states emitted by `integrate_trajectory_euler`'s iterator when
`n` elements remain to be taken: the closure advances its cloned state and
yields the advanced state (`Some(state.clone())` comes after the updates). -/
def iterate_states (ops : NumOps α) (s : State α) : ℕ → List (State α)
  | 0 => []
  | n + 1 => euler_step ops s :: iterate_states ops (euler_step ops s) n

/-- `integrate_trajectory_euler`: the 120 states yielded by
`std::iter::from_fn(...).take(120)` starting from (a clone of) `initial_state`. -/
def integrate_trajectory_euler (ops : NumOps α) (initial_state : State α) :
    List (State α) :=
  iterate_states ops initial_state 120

/-- Rust's `Iterator::step_by(k)`: the first element is always yielded, then
`k - 1` elements are skipped between consecutive yields. -/
def step_by (k : ℕ) : List β → List β
  | [] => []
  | a :: rest => a :: step_by k (rest.drop (k - 1))
termination_by l => l.length
decreasing_by
  simp only [List.length_drop, List.length_cons]
  omega

/-- `sampled_trajectory`: positions of the integrated trajectory thinned with
`.step_by(5)`. -/
def sampled_trajectory (ops : NumOps α) (initial_state : State α) :
    List (Vec2 α) :=
  (step_by 5 (integrate_trajectory_euler ops initial_state)).map State.pos

/-- `observe`: each sampled position mapped to its bearing angle
`p[1].atan2(p[0])`. -/
def observe (ops : NumOps α) (sampled : List (Vec2 α)) : List α :=
  sampled.map fun p => ops.atan2 p.y p.x

/-- `OptimizationProblem::residuals`: integrate the candidate state, sample,
observe, and subtract each predicted angle from the corresponding observed one
(`observed.iter().zip(predicted.iter()).map(|(o, p)| T::from(*o).unwrap() - *p)`).
`zip` truncates to the shorter of the two sequences. -/
def residuals (ops : NumOps α) (observed : List ℝ) (initial_state : State α) :
    List α :=
  let sampled := sampled_trajectory ops initial_state
  let predicted := observe ops sampled
  List.zipWith (fun o p => ops.sub (ops.ofReal o) p) observed predicted

/-- Four-quadrant arctangent `y.atan2(x)` of `f64`, modelled as the argument of
the complex number `x + y·i` (which agrees with `atan2` on every quadrant and
returns `0` at the origin, as `f64::atan2(0.0, 0.0)` does). -/
def atan2 (y x : ℝ) : ℝ := Complex.arg ⟨x, y⟩

/-- The numeric operations of plain `f64`, modelled over `ℝ`. -/
def realOps : NumOps ℝ where
  add := fun a b => a + b
  sub := fun a b => a - b
  mul := fun a b => a * b
  div := fun a b => a / b
  neg := fun a => -a
  sqrt := Real.sqrt
  powi := fun a n => a ^ n
  atan2 := atan2
  ofReal := fun c => c

/-- The `guess_position` closure in `fit_trajectory`: a point of the unit
circle at the given angle. -/
def guess_position (angle : ℝ) : Vec2 ℝ :=
  ⟨Real.cos angle, Real.sin angle⟩

/-- The initial-guess construction at the top of `fit_trajectory`
(`fit.rs` lines 6–10).  Rust `Vec` indexing `observations[0]` /
`observations[1]` panics when the vector is too short; the panic is modelled
by `none`.  On `some`, `fit_trajectory` hands this guess to the external
`levenberg_marquardt` crate, which is outside the repository's sources. -/
def fit_trajectory_initial_guess (observations : List ℝ) :
    Option (State ℝ) :=
  match observations[0]?, observations[1]? with
  | some a0, some a1 =>
      some ⟨guess_position a0,
            vdivs realOps (vsub realOps (guess_position a1) (guess_position a0)) DT⟩
  | _, _ => none

/-- Modelled from the spec: the `differential` crate's
`Differential<f64, Vector4<f64>>` element type (§4.3 Automatic Differentiation
Engine), whose source is not part of this repository: a value paired with a
fixed-size 4-slot derivative vector; slot `i` holds the partial derivative of
the value with respect to the `i`-th fit parameter. -/
structure Differential where
  value : ℝ
  derivative : Fin 4 → ℝ

/-- Modelled from the spec: the arithmetic of `Differential` values, each
operation propagating first-order derivatives by the standard chain rule
(§4.3: addition, subtraction, multiplication, division, power, square root;
§3: "atan2-style decomposition"; a value lifted from a plain number has an
all-zero derivative vector). -/
def dualOps : NumOps Differential where
  add := fun a b => ⟨a.value + b.value, fun i => a.derivative i + b.derivative i⟩
  sub := fun a b => ⟨a.value - b.value, fun i => a.derivative i - b.derivative i⟩
  mul := fun a b =>
    ⟨a.value * b.value,
     fun i => a.derivative i * b.value + a.value * b.derivative i⟩
  div := fun a b =>
    ⟨a.value / b.value,
     fun i => (a.derivative i * b.value - a.value * b.derivative i) / b.value ^ 2⟩
  neg := fun a => ⟨-a.value, fun i => -(a.derivative i)⟩
  sqrt := fun a =>
    ⟨Real.sqrt a.value, fun i => a.derivative i / (2 * Real.sqrt a.value)⟩
  powi := fun a n =>
    ⟨a.value ^ n, fun i => (n : ℝ) * a.value ^ (n - 1) * a.derivative i⟩
  atan2 := fun y x =>
    ⟨atan2 y.value x.value,
     fun i => (x.value * y.derivative i - y.value * x.derivative i) /
       (x.value ^ 2 + y.value ^ 2)⟩
  ofReal := fun c => ⟨c, fun _ => 0⟩

/-- The seeded differential state built at the start of
`OptimizationProblem::jacobian`: each of the four scalar parameters is lifted
with `.into()` (zero derivative vector) and then its own slot is set to `1.0`
(`state.pos[0].derivative[0] = 1.0;` and so on), i.e. slot 0 ↦ `pos.x`,
slot 1 ↦ `pos.y`, slot 2 ↦ `vel.x`, slot 3 ↦ `vel.y`. -/
def seeded_state (p : State ℝ) : State Differential :=
  ⟨⟨⟨p.pos.x, fun j => if j = 0 then 1 else 0⟩,
    ⟨p.pos.y, fun j => if j = 1 then 1 else 0⟩⟩,
   ⟨⟨p.vel.x, fun j => if j = 2 then 1 else 0⟩,
    ⟨p.vel.y, fun j => if j = 3 then 1 else 0⟩⟩⟩

/-- `OptimizationProblem::jacobian`: the residuals are evaluated over the
seeded differential state, and the matrix row `i` is filled with the four
derivative slots of residual `i`
(`jacobian[(i, j)] = r.derivative[j]`).  The `Dyn × U4` matrix is modelled as
the list of its rows. -/
def jacobian (p : State ℝ) (observed : List ℝ) : List (Fin 4 → ℝ) :=
  (residuals dualOps observed (seeded_state p)).map Differential.derivative

/-- Written from the claim's words, for the refinement comparison: the
simultaneous forward-Euler update `(pos + vel·Δt, vel + acc(pos)·Δt)` with
both right-hand sides evaluated at the old state. -/
def euler_step_simultaneous (s : State ℝ) : State ℝ :=
  ⟨⟨s.pos.x + s.vel.x * DT, s.pos.y + s.vel.y * DT⟩,
   ⟨s.vel.x - s.pos.x / Real.sqrt (s.pos.x ^ 2 + s.pos.y ^ 2) ^ 3 * DT,
    s.vel.y - s.pos.y / Real.sqrt (s.pos.x ^ 2 + s.pos.y ^ 2) ^ 3 * DT⟩⟩

/-- Written from the claim's words, for the refinement comparison:
semi-implicit (symplectic) Euler with this update order would advance the
position first and evaluate the acceleration at the already-updated
position. -/
def euler_step_semi_implicit (s : State ℝ) : State ℝ :=
  ⟨⟨s.pos.x + s.vel.x * DT, s.pos.y + s.vel.y * DT⟩,
   ⟨s.vel.x - (s.pos.x + s.vel.x * DT) /
      Real.sqrt ((s.pos.x + s.vel.x * DT) ^ 2 + (s.pos.y + s.vel.y * DT) ^ 2) ^ 3
        * DT,
    s.vel.y - (s.pos.y + s.vel.y * DT) /
      Real.sqrt ((s.pos.x + s.vel.x * DT) ^ 2 + (s.pos.y + s.vel.y * DT) ^ 2) ^ 3
        * DT⟩⟩

/-- Angular momentum `x·vel.y − y·vel.x` of a state — an analysis quantity
(not part of the source) used to show that Euler trajectories never revisit
their initial state. -/
def angular_momentum (s : State ℝ) : ℝ :=
  s.pos.x * s.vel.y - s.pos.y * s.vel.x

/-- The observable behaviour of `integrate_trajectory_euler`'s iterator,
as a relation: from internal state `s` with `n` elements of the `take` budget
remaining, the iterator may emit exactly the list `l`.  Each `next()` call
advances the cloned state with one Euler step and yields the advanced state. -/
inductive Produces (ops : NumOps α) : State α → ℕ → List (State α) → Prop where
  | nil : ∀ s, Produces ops s 0 []
  | cons : ∀ s n l, Produces ops (euler_step ops s) n l →
      Produces ops s (n + 1) (euler_step ops s :: l)

/-! ### Structural lemmas about the integrator, the sampler and the residuals -/

lemma iterate_states_eq (ops : NumOps α) :
    ∀ (n : ℕ) (s : State α),
      iterate_states ops s n =
        (List.range n).map fun i => (euler_step ops)^[i + 1] s := by
  intro n
  induction n with
  | zero => intro s; simp [iterate_states]
  | succ n ih =>
      intro s
      rw [iterate_states, ih (euler_step ops s), List.range_succ_eq_map]
      simp only [List.map_cons, List.map_map]
      refine congrArg₂ _ (by simp) ?_
      refine List.map_congr_left fun i _ => ?_
      simp [Function.comp, Function.iterate_succ_apply]

lemma integrate_eq (ops : NumOps α) (s : State α) :
    integrate_trajectory_euler ops s =
      (List.range 120).map fun i => (euler_step ops)^[i + 1] s :=
  iterate_states_eq ops 120 s

lemma integrate_length (ops : NumOps α) (s : State α) :
    (integrate_trajectory_euler ops s).length = 120 := by
  rw [integrate_eq]; simp

lemma integrate_getElem? (ops : NumOps α) (s : State α) (i : ℕ) :
    (integrate_trajectory_euler ops s)[i]? =
      if i < 120 then some ((euler_step ops)^[i + 1] s) else none := by
  rw [integrate_eq, List.getElem?_map]
  by_cases h : i < 120
  · rw [List.getElem?_range h, if_pos h, Option.map_some']
  · rw [List.getElem?_eq_none (by simpa using Nat.le_of_not_lt h), if_neg h,
      Option.map_none']

lemma step_by_getElem? (k : ℕ) (hk : 0 < k) :
    ∀ (i : ℕ) (l : List β), (step_by k l)[i]? = l[k * i]? := by
  intro i
  induction i with
  | zero =>
      intro l
      cases l with
      | nil => rw [step_by]; simp
      | cons a rest => rw [step_by]; simp
  | succ i ih =>
      intro l
      cases l with
      | nil => rw [step_by]; simp
      | cons a rest =>
          rw [step_by, List.getElem?_cons_succ, ih, List.getElem?_drop]
          have hidx : k * (i + 1) = (k - 1 + k * i) + 1 := by
            rw [Nat.mul_succ]; omega
          rw [hidx, List.getElem?_cons_succ]

lemma sampled_getElem? (ops : NumOps α) (s : State α) (i : ℕ) :
    (sampled_trajectory ops s)[i]? =
      ((integrate_trajectory_euler ops s)[5 * i]?).map State.pos := by
  rw [sampled_trajectory, List.getElem?_map, step_by_getElem? 5 (by omega)]

lemma sampled_length (ops : NumOps α) (s : State α) :
    (sampled_trajectory ops s).length = 24 := by
  have h24 : (sampled_trajectory ops s)[24]? = none := by
    rw [sampled_getElem?, integrate_getElem?, if_neg (by norm_num),
      Option.map_none']
  have h23 : (sampled_trajectory ops s)[23]? ≠ none := by
    rw [sampled_getElem?, integrate_getElem?, if_pos (by norm_num),
      Option.map_some']
    exact Option.some_ne_none _
  have hle : (sampled_trajectory ops s).length ≤ 24 :=
    List.getElem?_eq_none_iff.mp h24
  have hlt : 23 < (sampled_trajectory ops s).length := by
    by_contra hn
    exact h23 (List.getElem?_eq_none (by omega))
  omega

lemma observe_getElem? (ops : NumOps α) (l : List (Vec2 α)) (i : ℕ) :
    (observe ops l)[i]? = (l[i]?).map fun p => ops.atan2 p.y p.x := by
  rw [observe, List.getElem?_map]

lemma observe_length (ops : NumOps α) (l : List (Vec2 α)) :
    (observe ops l).length = l.length := by
  rw [observe, List.length_map]

lemma residuals_length (ops : NumOps α) (observed : List ℝ) (s : State α) :
    (residuals ops observed s).length = min observed.length 24 := by
  rw [residuals]
  simp only [List.length_zipWith, observe_length, sampled_length]

lemma residuals_getElem? (ops : NumOps α) (observed : List ℝ) (s : State α)
    (i : ℕ) (o : ℝ) (p : α) (ho : observed[i]? = some o)
    (hp : (observe ops (sampled_trajectory ops s))[i]? = some p) :
    (residuals ops observed s)[i]? = some (ops.sub (ops.ofReal o) p) := by
  rw [residuals, List.getElem?_zipWith, ho, hp]

/-- `euler_step` at the `f64` (real-number) instance, written out. -/
lemma euler_step_real (s : State ℝ) :
    euler_step realOps s =
      ⟨⟨s.pos.x + s.vel.x * DT, s.pos.y + s.vel.y * DT⟩,
       ⟨s.vel.x + -s.pos.x / Real.sqrt (s.pos.x ^ 2 + s.pos.y ^ 2) ^ 3 * DT,
        s.vel.y + -s.pos.y / Real.sqrt (s.pos.x ^ 2 + s.pos.y ^ 2) ^ 3 * DT⟩⟩ :=
  rfl

/-- For motion on the positive x-axis every quantity in the Euler step stays
rational, which lets concrete trajectories be evaluated exactly. -/
lemma euler_step_axis (x v : ℝ) (hx : 0 < x) :
    euler_step realOps ⟨⟨x, 0⟩, ⟨v, 0⟩⟩ =
      ⟨⟨x + v * DT, 0⟩, ⟨v - DT / x ^ 2, 0⟩⟩ := by
  rw [euler_step_real]
  have h1 : Real.sqrt (x ^ 2 + 0 ^ 2) = x := by
    rw [show x ^ 2 + (0 : ℝ) ^ 2 = x ^ 2 by ring]
    exact Real.sqrt_sq hx.le
  simp only [State.mk.injEq, Vec2.mk.injEq, h1]
  refine ⟨⟨trivial, by ring⟩, ?_, by ring⟩
  field_simp
  ring

/-- One Euler step multiplies the angular momentum by
`1 + Δt² / |pos|³` (computed from the pre-step position). -/
lemma angular_momentum_step (s : State ℝ)
    (h : s.pos.x ^ 2 + s.pos.y ^ 2 ≠ 0) :
    angular_momentum (euler_step realOps s) =
      angular_momentum s *
        (1 + DT ^ 2 / Real.sqrt (s.pos.x ^ 2 + s.pos.y ^ 2) ^ 3) := by
  have hpos : 0 < s.pos.x ^ 2 + s.pos.y ^ 2 :=
    lt_of_le_of_ne (by positivity) (Ne.symm h)
  have hr : 0 < Real.sqrt (s.pos.x ^ 2 + s.pos.y ^ 2) := Real.sqrt_pos.mpr hpos
  rw [euler_step_real, angular_momentum, angular_momentum]
  field_simp
  ring

/-- While the angular momentum is nonzero, its magnitude strictly grows along
the Euler iteration; in particular it never returns to its initial value. -/
lemma angular_momentum_iterate (s : State ℝ) (hL : angular_momentum s ≠ 0) :
    ∀ k : ℕ,
      |angular_momentum s| ≤ |angular_momentum ((euler_step realOps)^[k] s)| ∧
      (1 ≤ k →
        |angular_momentum s| < |angular_momentum ((euler_step realOps)^[k] s)|) := by
  intro k
  induction k with
  | zero => simp
  | succ k ih =>
      have hLu : angular_momentum ((euler_step realOps)^[k] s) ≠ 0 := by
        intro h0
        rw [h0, abs_zero] at ih
        exact hL (abs_eq_zero.mp (le_antisymm ih.1 (abs_nonneg _)))
      set u := (euler_step realOps)^[k] s with hu
      have hd2 : u.pos.x ^ 2 + u.pos.y ^ 2 ≠ 0 := by
        intro h0
        have hx : u.pos.x = 0 := by nlinarith [sq_nonneg u.pos.x, sq_nonneg u.pos.y]
        have hy : u.pos.y = 0 := by nlinarith [sq_nonneg u.pos.x, sq_nonneg u.pos.y]
        exact hLu (by rw [angular_momentum, hx, hy]; ring)
      have hposd : 0 < u.pos.x ^ 2 + u.pos.y ^ 2 :=
        lt_of_le_of_ne (by positivity) (Ne.symm hd2)
      have hr : 0 < Real.sqrt (u.pos.x ^ 2 + u.pos.y ^ 2) := Real.sqrt_pos.mpr hposd
      have hfac : 1 < 1 + DT ^ 2 / Real.sqrt (u.pos.x ^ 2 + u.pos.y ^ 2) ^ 3 := by
        have hq : 0 < DT ^ 2 / Real.sqrt (u.pos.x ^ 2 + u.pos.y ^ 2) ^ 3 := by
          apply div_pos
          · rw [DT]; norm_num
          · positivity
        linarith
      have hstep : angular_momentum ((euler_step realOps)^[k + 1] s) =
          angular_momentum u *
            (1 + DT ^ 2 / Real.sqrt (u.pos.x ^ 2 + u.pos.y ^ 2) ^ 3) := by
        rw [Function.iterate_succ_apply', ← hu]
        exact angular_momentum_step u hd2
      have hgrow : |angular_momentum u| <
          |angular_momentum ((euler_step realOps)^[k + 1] s)| := by
        rw [hstep, abs_mul, abs_of_pos (lt_trans zero_lt_one hfac)]
        have h1 : 0 < |angular_momentum u| := abs_pos.mpr hLu
        nlinarith
      exact ⟨ih.1.trans hgrow.le, fun _ => lt_of_le_of_lt ih.1 hgrow⟩

/-! ### The iterator protocol produces exactly one output list -/

lemma produces_iterate (ops : NumOps α) :
    ∀ (n : ℕ) (s : State α), Produces ops s n (iterate_states ops s n) := by
  intro n
  induction n with
  | zero => intro s; exact Produces.nil s
  | succ n ih =>
      intro s
      rw [iterate_states]
      exact Produces.cons s n _ (ih _)

lemma produces_unique (ops : NumOps α) {s : State α} {n : ℕ}
    {l₁ l₂ : List (State α)} (h₁ : Produces ops s n l₁)
    (h₂ : Produces ops s n l₂) : l₁ = l₂ := by
  induction h₁ generalizing l₂ with
  | nil s => cases h₂; rfl
  | cons s n l h ih =>
      cases h₂ with
      | cons _ _ l' h' => rw [ih h']

/-! ### Claim theorems -/

/-- C1 (counterexample): with an empty observation sequence,
`fit_trajectory` panics on the out-of-bounds access `observations[0]`
(modelled by `none`) while building the initial guess — it does not return a
report carrying a degenerate-input error. -/
theorem c1_counterexample : fit_trajectory_initial_guess [] = none := rfl

/-- C1 (amended): `fit_trajectory` fails fast on fewer than 2 observations and
never fails on 2 or more, but the failure is an index-out-of-bounds panic in
the initial-guess construction (modelled by `none`), not an error surfaced in
a returned report. -/
theorem c1_degenerate_input_panics (obs : List ℝ) :
    fit_trajectory_initial_guess obs = none ↔ obs.length < 2 := by
  match obs with
  | [] => simp [fit_trajectory_initial_guess]
  | [a] => simp [fit_trajectory_initial_guess]
  | a :: b :: rest => simp [fit_trajectory_initial_guess]

/-- C3 (counterexample): for the observed angles `[0, π]` the initial-guess
velocity is `(-8, 0)` — the finite difference of the two unit-circle points
divided by the raw integrator step `Δt = 0.25` — and not the finite difference
divided by the inter-observation interval `5·Δt = 1.25`, whose x-component
would be `-8/5`. -/
theorem c3_counterexample :
    (fit_trajectory_initial_guess [0, Real.pi]).map State.vel =
      some ⟨-8, 0⟩ ∧
    (-8 : ℝ) ≠ (Real.cos Real.pi - Real.cos 0) / (5 * DT) := by
  constructor
  · rw [show fit_trajectory_initial_guess [0, Real.pi] =
        some ⟨guess_position 0,
          vdivs realOps
            (vsub realOps (guess_position Real.pi) (guess_position 0)) DT⟩ from rfl]
    rw [Option.map_some']
    simp only [guess_position, vdivs, vsub, realOps, DT]
    norm_num [Vec2.mk.injEq, Real.cos_pi, Real.sin_pi]
  · rw [Real.cos_pi, Real.cos_zero, DT]
    norm_num

/-- C3 (amended): for any observation sequence with at least 2 elements, the
initial guess places the position on the unit circle at the first observed
angle and sets the velocity to the finite difference of the unit-circle points
at the first two observed angles divided by the raw integrator time step
`DT = 0.25` (not by the inter-observation interval `5·Δt`). -/
theorem c3_initial_guess_formula (a0 a1 : ℝ) (rest : List ℝ) :
    fit_trajectory_initial_guess (a0 :: a1 :: rest) =
      some ⟨⟨Real.cos a0, Real.sin a0⟩,
            ⟨(Real.cos a1 - Real.cos a0) / DT,
             (Real.sin a1 - Real.sin a0) / DT⟩⟩ ∧
    Real.cos a0 ^ 2 + Real.sin a0 ^ 2 = 1 := by
  constructor
  · simp [fit_trajectory_initial_guess, guess_position, vdivs, vsub, realOps]
  · rw [add_comm]
    exact Real.sin_sq_add_cos_sq a0

/-- C4: for a state whose position is not the origin, one integration step
with `Δt = 0.25` is the explicit forward-Euler update of `pos' = vel`,
`vel' = −pos/|pos|³`: the new position is `pos + vel·Δt` and the new velocity
is `vel − (pos/|pos|³)·Δt`, both right-hand sides taken at the old state. -/
theorem c4_euler_step_formula (s : State ℝ) (_h : s.pos ≠ ⟨0, 0⟩) :
    euler_step realOps s =
      ⟨⟨s.pos.x + s.vel.x * DT, s.pos.y + s.vel.y * DT⟩,
       ⟨s.vel.x - s.pos.x / Real.sqrt (s.pos.x ^ 2 + s.pos.y ^ 2) ^ 3 * DT,
        s.vel.y - s.pos.y / Real.sqrt (s.pos.x ^ 2 + s.pos.y ^ 2) ^ 3 * DT⟩⟩ := by
  rw [euler_step_real]
  exact congrArg₂ State.mk rfl (congrArg₂ Vec2.mk (by ring) (by ring))

/-- C4 (witness): the step formula holds at the concrete state
`pos = (1, 0)`, `vel = (0, 0)`, whose position is away from the origin. -/
theorem c4_witness :
    ((⟨1, 0⟩ : Vec2 ℝ) ≠ ⟨0, 0⟩) ∧
    euler_step realOps ⟨⟨1, 0⟩, ⟨0, 0⟩⟩ =
      ⟨⟨1 + 0 * DT, 0 + 0 * DT⟩,
       ⟨0 - 1 / Real.sqrt (1 ^ 2 + 0 ^ 2) ^ 3 * DT,
        0 - 0 / Real.sqrt (1 ^ 2 + 0 ^ 2) ^ 3 * DT⟩⟩ :=
  ⟨by norm_num [Vec2.mk.injEq],
   c4_euler_step_formula ⟨⟨1, 0⟩, ⟨0, 0⟩⟩ (by norm_num [Vec2.mk.injEq])⟩

/-- The integrator never revisits an initial state of nonzero angular
momentum: each Euler step strictly grows the angular momentum's magnitude.
For radial initial states (angular momentum zero, position off the origin)
the question whether the 1-D explicit-Euler motion can return exactly within
120 steps is not settled here: the growth argument degenerates and no
substitute invariant is available. -/
lemma not_mem_integrate_of_angular_momentum_ne_zero (s : State ℝ)
    (hL : angular_momentum s ≠ 0) :
    s ∉ integrate_trajectory_euler realOps s := by
  intro hmem
  rw [integrate_eq] at hmem
  rcases List.mem_map.mp hmem with ⟨i, _, hEq⟩
  have hlt := (angular_momentum_iterate s hL (i + 1)).2 (by omega)
  rw [hEq] at hlt
  exact absurd hlt (lt_irrefl _)

/-- C6: with exactly 24 observed angles, the residual evaluator returns
exactly 24 residuals, and whenever position `i` holds observation `o` and
sampled position `q`, residual `i` is `o - atan2 q.y q.x` — observed minus the
bearing of the `i`-th sampled position of the candidate's trajectory. -/
theorem c6_residual_values (s : State ℝ) (obs : List ℝ)
    (h : obs.length = 24) :
    (residuals realOps obs s).length = 24 ∧
    ∀ (i : ℕ) (o : ℝ) (q : Vec2 ℝ), obs[i]? = some o →
      (sampled_trajectory realOps s)[i]? = some q →
      (residuals realOps obs s)[i]? = some (o - atan2 q.y q.x) := by
  constructor
  · rw [residuals_length, h]
    exact min_self 24
  · intro i o q ho hq
    have hp : (observe realOps (sampled_trajectory realOps s))[i]? =
        some (realOps.atan2 q.y q.x) := by
      rw [observe_getElem?, hq, Option.map_some']
    exact residuals_getElem? realOps obs s i o _ ho hp

/-- C6 (witness): with the all-zero list of 24 observations and the candidate
state `pos = (1, 0)`, `vel = (0, 0)` there are exactly 24 residuals. -/
theorem c6_witness :
    (List.replicate 24 (0 : ℝ)).length = 24 ∧
    (residuals realOps (List.replicate 24 (0 : ℝ)) ⟨⟨1, 0⟩, ⟨0, 0⟩⟩).length = 24 :=
  ⟨by simp, (c6_residual_values ⟨⟨1, 0⟩, ⟨0, 0⟩⟩ _ (by simp)).1⟩

/-- C7: the Jacobian query maps each residual, evaluated over differential
values whose derivative slots are seeded one-hot at the initial state only
(slot 0 ↦ pos.x, slot 1 ↦ pos.y, slot 2 ↦ vel.x, slot 3 ↦ vel.y), to its
attached 4-slot derivative vector: row `i` of the returned matrix is exactly
the derivative vector of the `i`-th differential residual. -/
theorem c7_jacobian_rows (p : State ℝ) (obs : List ℝ) (i : ℕ) :
    (jacobian p obs)[i]? =
      ((residuals dualOps obs (seeded_state p))[i]?).map Differential.derivative ∧
    seeded_state p =
      ⟨⟨⟨p.pos.x, fun j => if j = 0 then 1 else 0⟩,
        ⟨p.pos.y, fun j => if j = 1 then 1 else 0⟩⟩,
       ⟨⟨p.vel.x, fun j => if j = 2 then 1 else 0⟩,
        ⟨p.vel.y, fun j => if j = 3 then 1 else 0⟩⟩⟩ :=
  ⟨by rw [jacobian, List.getElem?_map], rfl⟩

/-- C8: the trajectory generator is deterministic — any two complete runs of
the iterator protocol from the same initial state emit the same list, namely
the integrated trajectory; there is no hidden shared mutable state. -/
theorem c8_integrate_deterministic (s : State ℝ) (l₁ l₂ : List (State ℝ))
    (h₁ : Produces realOps s 120 l₁) (h₂ : Produces realOps s 120 l₂) :
    l₁ = l₂ ∧ l₁ = integrate_trajectory_euler realOps s :=
  ⟨produces_unique realOps h₁ h₂,
   produces_unique realOps h₁ (produces_iterate realOps 120 s)⟩

/-- C8 (witness): two runs from `pos = (1, 0)`, `vel = (0, 1)` emit the same
list. -/
theorem c8_witness :
    Produces realOps ⟨⟨1, 0⟩, ⟨0, 1⟩⟩ 120
        (integrate_trajectory_euler realOps ⟨⟨1, 0⟩, ⟨0, 1⟩⟩) ∧
    (integrate_trajectory_euler realOps ⟨⟨1, 0⟩, ⟨0, 1⟩⟩ =
        integrate_trajectory_euler realOps ⟨⟨1, 0⟩, ⟨0, 1⟩⟩ ∧
      integrate_trajectory_euler realOps ⟨⟨1, 0⟩, ⟨0, 1⟩⟩ =
        integrate_trajectory_euler realOps ⟨⟨1, 0⟩, ⟨0, 1⟩⟩) :=
  ⟨produces_iterate realOps 120 _,
   c8_integrate_deterministic ⟨⟨1, 0⟩, ⟨0, 1⟩⟩ _ _
     (produces_iterate realOps 120 _) (produces_iterate realOps 120 _)⟩

/-- C9: for an observed-angle sequence of any length `n`, the residual
evaluator returns `min n 24` residuals — extra observations beyond the 24
sampled trajectory points are silently ignored, and fewer observations
silently shorten the residual vector. -/
theorem c9_residuals_min_length (obs : List ℝ) (s : State ℝ) :
    (residuals realOps obs s).length = min obs.length 24 :=
  residuals_length realOps obs s

/-- C2 (counterexample): for the initial state `pos = (1, 0)`, `vel = (1, 0)`
the first sampled position is the position of element 0 of the integrated
sequence (the state after one Euler step), not the position of element 4 (the
state after five Euler steps) as the claimed indices 4, 9, 14, … would
require. -/
theorem c2_counterexample :
    (sampled_trajectory realOps ⟨⟨1, 0⟩, ⟨1, 0⟩⟩)[0]? ≠
      ((integrate_trajectory_euler realOps ⟨⟨1, 0⟩, ⟨1, 0⟩⟩)[4]?).map
        State.pos := by
  have h1 : euler_step realOps ⟨⟨1, 0⟩, ⟨1, 0⟩⟩ = ⟨⟨5/4, 0⟩, ⟨3/4, 0⟩⟩ := by
    rw [euler_step_axis 1 1 one_pos]
    norm_num [DT, State.mk.injEq, Vec2.mk.injEq]
  have h2 : euler_step realOps ⟨⟨5/4, 0⟩, ⟨3/4, 0⟩⟩ =
      ⟨⟨23/16, 0⟩, ⟨59/100, 0⟩⟩ := by
    rw [euler_step_axis (5/4) (3/4) (by norm_num)]
    norm_num [DT, State.mk.injEq, Vec2.mk.injEq]
  have h3 : euler_step realOps ⟨⟨23/16, 0⟩, ⟨59/100, 0⟩⟩ =
      ⟨⟨317/200, 0⟩, ⟨24811/52900, 0⟩⟩ := by
    rw [euler_step_axis (23/16) (59/100) (by norm_num)]
    norm_num [DT, State.mk.injEq, Vec2.mk.injEq]
  have h4 : euler_step realOps ⟨⟨317/200, 0⟩, ⟨24811/52900, 0⟩⟩ =
      ⟨⟨360197/211600, 0⟩, ⟨1964232579/5315868100, 0⟩⟩ := by
    rw [euler_step_axis (317/200) (24811/52900) (by norm_num)]
    norm_num [DT, State.mk.injEq, Vec2.mk.injEq]
  have h5 : (euler_step realOps)^[5] (⟨⟨1, 0⟩, ⟨1, 0⟩⟩ : State ℝ) =
      euler_step realOps (euler_step realOps (euler_step realOps
        (euler_step realOps (euler_step realOps ⟨⟨1, 0⟩, ⟨1, 0⟩⟩)))) := rfl
  rw [sampled_getElem?, integrate_getElem?, integrate_getElem?]
  rw [if_pos (by norm_num), if_pos (by norm_num)]
  rw [show (5 * 0 + 1 : ℕ) = 1 from rfl, show (4 + 1 : ℕ) = 5 from rfl]
  rw [h5, h1, h2, h3, h4,
    euler_step_axis (360197/211600) (1964232579/5315868100) (by norm_num),
    show (euler_step realOps)^[1] (⟨⟨1, 0⟩, ⟨1, 0⟩⟩ : State ℝ) =
      euler_step realOps ⟨⟨1, 0⟩, ⟨1, 0⟩⟩ from Function.iterate_one _ ▸ rfl,
    h1]
  simp only [Option.map_some', ne_eq, Option.some.injEq]
  norm_num [DT, State.mk.injEq, Vec2.mk.injEq]

/-- C2 (amended): the sampled sub-sequence consists of the elements of the
120-element integrated sequence at indices 0, 5, 10, …, 115 — Rust's
`step_by(5)` yields the first element and then every 5th — giving exactly 24
sampled positions, each mapped through the bearing function to give exactly 24
predicted angles. -/
theorem c2_sampling_policy (s : State ℝ) :
    (sampled_trajectory realOps s).length = 24 ∧
    (∀ k : ℕ, (sampled_trajectory realOps s)[k]? =
      ((integrate_trajectory_euler realOps s)[5 * k]?).map State.pos) ∧
    (observe realOps (sampled_trajectory realOps s)).length = 24 ∧
    ∀ k : ℕ, (observe realOps (sampled_trajectory realOps s))[k]? =
      ((sampled_trajectory realOps s)[k]?).map fun q => atan2 q.y q.x :=
  ⟨sampled_length realOps s, fun k => sampled_getElem? realOps s k,
   by rw [observe_length, sampled_length],
   fun k => observe_getElem? realOps (sampled_trajectory realOps s) k⟩

/-- C10: the source's sequential in-place updates (acceleration bound from the
pre-update position, then `pos`, then `vel`) compute exactly the simultaneous
forward-Euler update with both right-hand sides at the old state; and the step
is not semi-implicit Euler — at `pos = (1, 0)`, `vel = (1, 0)` the
semi-implicit update (acceleration at the already-advanced position) gives a
different state. -/
theorem c10_update_order :
    (∀ s : State ℝ, euler_step realOps s = euler_step_simultaneous s) ∧
    euler_step realOps ⟨⟨1, 0⟩, ⟨1, 0⟩⟩ ≠
      euler_step_semi_implicit ⟨⟨1, 0⟩, ⟨1, 0⟩⟩ := by
  constructor
  · intro s
    rw [euler_step_real, euler_step_simultaneous]
    exact congrArg₂ State.mk rfl (congrArg₂ Vec2.mk (by ring) (by ring))
  · intro hEq
    have hL : (euler_step realOps ⟨⟨1, 0⟩, ⟨1, 0⟩⟩).vel.x = 3 / 4 := by
      rw [euler_step_axis 1 1 one_pos]
      norm_num [DT]
    have hs : Real.sqrt ((1 + 1 * DT) ^ 2 + (0 + 0 * DT) ^ 2) = 5 / 4 := by
      rw [show ((1 : ℝ) + 1 * DT) ^ 2 + (0 + 0 * DT) ^ 2 = (5/4 : ℝ) ^ 2 by
        rw [DT]; norm_num]
      exact Real.sqrt_sq (by norm_num)
    have hR : (euler_step_semi_implicit ⟨⟨1, 0⟩, ⟨1, 0⟩⟩).vel.x = 21 / 25 := by
      show (1 : ℝ) - (1 + 1 * DT) /
          Real.sqrt ((1 + 1 * DT) ^ 2 + (0 + 0 * DT) ^ 2) ^ 3 * DT = 21 / 25
      rw [hs, DT]
      norm_num
    rw [hEq, hR] at hL
    norm_num at hL

end

end OrbitFit
